import Mathlib

/-!
Verification of the mapreduce orchestration engine (mapreduce.go).

The concurrent Go code is embedded sequentially: a run of
MapReduceWithSource is a canonical linearization, given by the list of
writer/cancel invocations performed by the reducer and the mappers,
followed by the reducer goroutine's epilogue (panic recovery or clean
finish).  Channels are lists of the values they carried; close-only
channels are booleans; the atomic first-error cell is an Option.
-/

/-- Error values of the package.  `errCancelWithNil` and
`errReduceNoOutput` are the two sentinels (mapreduce.go lines 16-21);
`userErr` is any error supplied by user code; `panicErr s` is the error
built by the recover handler from a panic value whose string form is `s`
(line 147). -/
inductive GoErr where
  | errCancelWithNil : GoErr
  | errReduceNoOutput : GoErr
  | userErr : String → GoErr
  | panicErr : String → GoErr
deriving DecidableEq, Repr

/-- Message carried by an error, as produced by errors.New / fmt.Errorf. -/
def GoErr.message : GoErr → String
  | GoErr.errCancelWithNil => "mapreduce cancelled with nil"
  | GoErr.errReduceNoOutput => "reduce not writing value"
  | GoErr.userErr s => s
  | GoErr.panicErr s => s

/-- Model of a context.Context as far as the engine observes it:
context.Background() is never cancelled; an external context may be
cancelled. -/
inductive GoContext where
  | background : GoContext
  | external : Bool → GoContext
deriving DecidableEq, Repr

/-- Whether a receive from ctx.Done() is ready. -/
def GoContext.isCancelled : GoContext → Bool
  | GoContext.background => false
  | GoContext.external c => c

/-- mapReduceOptions (lines 42-45).  Go's int is modelled as Int. -/
structure mapReduceOptions where
  ctx : GoContext
  workers : Int
deriving DecidableEq, Repr

/-- Option is a mutator of mapReduceOptions (line 40). -/
def MROption : Type := mapReduceOptions → mapReduceOptions

/-- defaultWorkers constant (line 12). -/
def defaultWorkers : Int := 16

/-- minWorkers constant (line 13). -/
def minWorkers : Int := 1

/-- newOptions (lines 276-281): background context and 16 workers. -/
def newOptions : mapReduceOptions :=
  { ctx := GoContext.background, workers := defaultWorkers }

/-- WithWorkers (lines 203-211): clamp to minWorkers when below it. -/
def WithWorkers (workers : Int) : MROption := fun opts =>
  if workers < minWorkers then { opts with workers := minWorkers }
  else { opts with workers := workers }

/-- WithContext (lines 196-200). -/
def WithContext (c : GoContext) : MROption := fun opts => { opts with ctx := c }

/-- buildOptions (lines 213-220): apply each option to newOptions. -/
def buildOptions (opts : List MROption) : mapReduceOptions :=
  opts.foldl (fun options opt => opt options) newOptions

/-- guardedWriter.Write (lines 307-316).  The select discards the value
when ctx.Done() is ready or done is closed; otherwise the value is sent
on the channel (appended to its contents).  `c` is whether ctx is
cancelled, `d` is whether done is closed, `ch` is the channel's content. -/
def gwWrite {T : Type} (c d : Bool) (ch : List T) (v : T) : List T :=
  if c then ch
  else if d then ch
  else ch ++ [v]

/-- Which channel a close operation targets, for recording close order. -/
inductive CloseEv where
  | doneCh : CloseEv
  | outputCh : CloseEv
deriving DecidableEq, Repr

/-- Orchestrator state of one MapReduceWithSource run: the atomic retErr
cell, the once-guard of the cancel closure (lines 283-290), the
closeOnce guard of finish (lines 122-130) together with the trace of
close operations it performed, whether the source was drained, and the
values successfully sent on the output channel. -/
structure MRState (V : Type) where
  firstErr : Option GoErr
  cancelFired : Bool
  closed : Bool
  closeTrace : List CloseEv
  sourceDrained : Bool
  outputVals : List V
deriving DecidableEq, Repr

/-- State at the start of a run: empty cell, nothing closed, no output. -/
def initState {V : Type} : MRState V :=
  { firstErr := none, cancelFired := false, closed := false,
    closeTrace := [], sourceDrained := false, outputVals := [] }

/-- Error stored by the cancel closure (lines 132-136): nil becomes
ErrCancelWithNil, any other error is stored unchanged. -/
def cancelStored : Option GoErr → GoErr
  | some e => e
  | none => GoErr.errCancelWithNil

/-- finish (lines 125-130): under closeOnce, close done then output. -/
def applyFinish {V : Type} (s : MRState V) : MRState V :=
  if s.closed then s
  else { s with closed := true,
                closeTrace := s.closeTrace ++ [CloseEv.doneCh, CloseEv.outputCh] }

/-- cancel (lines 131-140) wrapped by once (lines 283-290): only the
first invocation stores the error, drains the source and runs finish. -/
def applyCancel {V : Type} (e : Option GoErr) (s : MRState V) : MRState V :=
  if s.cancelFired then s
  else applyFinish { s with cancelFired := true,
                            firstErr := some (cancelStored e),
                            sourceDrained := true }

/-- An observable invocation performed during the run by the reducer or
a mapper: a writer.Write on the output writer, or a cancel call. -/
inductive RedEv (V : Type) where
  | write : V → RedEv V
  | cancel : Option GoErr → RedEv V
deriving DecidableEq, Repr

/-- One event against the orchestrator state.  A write goes through the
guarded writer bound to (ctx, output, done) built at line 121; `c` is
whether the run's context is cancelled. -/
def mrStep {V : Type} (c : Bool) (s : MRState V) : RedEv V → MRState V
  | RedEv.write v => { s with outputVals := gwWrite c s.closed s.outputVals v }
  | RedEv.cancel e => applyCancel e s

/-- Epilogue of the reducer goroutine (lines 142-155): on panic the
recover handler routes fmt.Errorf of the panic value through cancel;
on clean return it calls finish. -/
def runEpilogue {V : Type} (p : Option String) (s : MRState V) : MRState V :=
  match p with
  | some msg => applyCancel (some (GoErr.panicErr msg)) s
  | none => applyFinish s

/-- Final orchestrator state of a run with events evs and reducer panic
status p, under a context whose cancellation status is c. -/
def runEvents {V : Type} (c : Bool) (evs : List (RedEv V)) (p : Option String) :
    MRState V :=
  runEpilogue p (evs.foldl (mrStep c) initState)

/-- Result extraction (lines 161-170): receive one value from output,
then return the stored error if any, else the value if one arrived,
else ErrReduceNoOutput.  `zero` is the zero value of V. -/
def mrFinalize {V : Type} (zero : V) (retErr : Option GoErr)
    (received : Option V) : V × Option GoErr :=
  match retErr with
  | some e => (zero, some e)
  | none =>
    match received with
    | some v => (v, none)
    | none => (zero, some GoErr.errReduceNoOutput)

/-- The pair (val, err) returned by MapReduceWithSource for a run: the
main goroutine receives the first value carried by output (if any) and
applies the extraction logic to the retErr cell. -/
def mapReduceRun {V : Type} (zero : V) (c : Bool) (evs : List (RedEv V))
    (p : Option String) : V × Option GoErr :=
  mrFinalize zero (runEvents c evs p).firstErr (runEvents c evs p).outputVals.head?

/-- Deferred tail drain of output (lines 113-117): any further value
received after the main read raises the double-write panic, modelled as
an Except.error carrying the panic message. -/
def tailDrain {V : Type} (rest : List V) : Except String Unit :=
  match rest with
  | [] => Except.ok ()
  | _ :: _ => Except.error "more than one element written in reducer"

/-- Outcome of the deferred drain for a whole run: it receives whatever
output carried beyond the one value taken by the main read. -/
def mapReduceTailDrain {V : Type} (c : Bool) (evs : List (RedEv V))
    (p : Option String) : Except String Unit :=
  tailDrain (runEvents c evs p).outputVals.tail

/-- Argument of the first cancel invocation of the run, if any: either
the first cancel event, or - when no event cancelled - the panic-derived
error routed through cancel by the recover handler. -/
def firstCancelArg {V : Type} : List (RedEv V) → Option String → Option (Option GoErr)
  | [], none => none
  | [], some msg => some (some (GoErr.panicErr msg))
  | RedEv.write _ :: rest, p => firstCancelArg rest p
  | RedEv.cancel e :: _, _ => some e

/-- Whether the event list contains a cancel invocation. -/
def hasCancel {V : Type} : List (RedEv V) → Bool
  | [] => false
  | RedEv.write _ :: rest => hasCancel rest
  | RedEv.cancel _ :: _ => true

/-- Result of the worker pool: the items it handed to the mapper, in
order, and the contents of the collector channel it closed. -/
structure MapperPoolResult (T U : Type) where
  applied : List T
  collector : List U
deriving DecidableEq, Repr

/-- executeMappers (lines 239-274), linearized.  At step i the select
returns when ctx.Done() is ready (g i) or done is closed (d i);
otherwise it receives the next input item - returning if the input is
exhausted - and runs the mapper on it.  The mapper's writes (f t) go
through the guarded writer over the collector (line 248). -/
def executeMappersRun {T U : Type} (g d : Nat → Bool) (f : T → List U) :
    Nat → List T → MapperPoolResult T U
  | _, [] => { applied := [], collector := [] }
  | i, t :: ts =>
    if g i then { applied := [], collector := [] }
    else if d i then { applied := [], collector := [] }
    else
      let rest := executeMappersRun g d f (i + 1) ts
      { applied := t :: rest.applied,
        collector := (f t).foldl (fun ch u => gwWrite (g i) (d i) ch u) []
                       ++ rest.collector }

/-- Map (lines 89-98): runs only the worker pool over the produced
items; the done channel it creates is never closed, so only the context
can stop the pool.  `f t` is the list of values the mapper writes for
item t. -/
def MapChan {T U : Type} (g : Nat → Bool) (f : T → List U) (items : List T) :
    MapperPoolResult T U :=
  executeMappersRun g (fun _ => false) f 0 items

/-- drain (lines 233-237): consume a channel to the end. -/
def drain {T : Type} (_channel : List T) : Unit := ()

/-- MapVoid (lines 189-193): drain the channel returned by Map, whose
mapper wrapper only runs the void mapper and writes nothing.  The model
returns the trace of items the mapper was applied to, which is complete
exactly because the drain runs Map's pool to the end before returning. -/
def MapVoid {T : Type} (g : Nat → Bool) (items : List T) : List T :=
  let r := MapChan g (fun _ => ([] : List Unit)) items
  let _u := drain r.collector
  r.applied

/-- Events of the Finish pipeline (lines 59-69) in the canonical
schedule where all functions are dispatched (workers = len(fns)): each
function returning an error makes its mapper call cancel with it, the
reducer drains the pipe, and the MapReduceVoid wrapper (lines 177-184)
writes the placeholder. -/
def finishEvents (fns : List (Option GoErr)) : List (RedEv Unit) :=
  fns.filterMap (fun r => r.map (fun e => RedEv.cancel (some e))) ++ [RedEv.write ()]

/-- Finish (lines 54-70).  A function is modelled by its returned error.
The first component is the list of functions the pipeline executed:
empty when the zero-functions early return is taken, all of them
otherwise; the second is the returned error. -/
def Finish (fns : List (Option GoErr)) : List (Option GoErr) × Option GoErr :=
  if fns.length = 0 then ([], none)
  else (fns, (mapReduceRun () false (finishEvents fns) none).2)

/-- FinishVoid (lines 73-86): with no functions return at once without
running MapVoid; otherwise run all functions through MapVoid under the
default never-cancelled context.  The result is the list of functions
that were executed. -/
def FinishVoid {α : Type} (fns : List α) : List α :=
  if fns.length = 0 then [] else MapVoid (fun _ => false) fns

/-- Invariant tying the closeOnce guard to the close trace: a fired
cancel implies finish ran, and the trace is exactly the ordered pair of
closes when finish ran, empty otherwise. -/
def closeInv {V : Type} (s : MRState V) : Prop :=
  (s.cancelFired = true → s.closed = true) ∧
  (s.closed = true → s.closeTrace = [CloseEv.doneCh, CloseEv.outputCh]) ∧
  (s.closed = false → s.closeTrace = [])

/-! Helper lemmas about the orchestrator state machine. -/

theorem applyCancel_fired {V : Type} (e : Option GoErr) (s : MRState V)
    (h : s.cancelFired = true) : applyCancel e s = s := by
  simp [applyCancel, h]

theorem applyCancel_unfired {V : Type} (e : Option GoErr) (s : MRState V)
    (h : s.cancelFired = false) :
    applyCancel e s =
      applyFinish { s with cancelFired := true,
                           firstErr := some (cancelStored e),
                           sourceDrained := true } := by
  simp [applyCancel, h]

theorem applyFinish_firstErr {V : Type} (s : MRState V) :
    (applyFinish s).firstErr = s.firstErr := by
  unfold applyFinish
  split <;> rfl

theorem applyFinish_cancelFired {V : Type} (s : MRState V) :
    (applyFinish s).cancelFired = s.cancelFired := by
  unfold applyFinish
  split <;> rfl

theorem applyFinish_outputVals {V : Type} (s : MRState V) :
    (applyFinish s).outputVals = s.outputVals := by
  unfold applyFinish
  split <;> rfl

theorem applyFinish_closed {V : Type} (s : MRState V) :
    (applyFinish s).closed = true := by
  unfold applyFinish
  by_cases hc : s.closed = true
  · rw [if_pos hc]
    exact hc
  · rw [if_neg hc]

theorem applyCancel_outputVals {V : Type} (e : Option GoErr) (s : MRState V) :
    (applyCancel e s).outputVals = s.outputVals := by
  unfold applyCancel
  split
  · rfl
  · rw [applyFinish_outputVals]

theorem foldl_mrStep_fired {V : Type} (c : Bool) (evs : List (RedEv V)) :
    ∀ s : MRState V, s.cancelFired = true →
      (evs.foldl (mrStep c) s).cancelFired = true ∧
      (evs.foldl (mrStep c) s).firstErr = s.firstErr := by
  induction evs with
  | nil => exact fun s h => ⟨h, rfl⟩
  | cons e rest ih =>
    intro s h
    cases e with
    | write v =>
      rw [List.foldl_cons]
      exact ih (mrStep c s (RedEv.write v)) h
    | cancel e' =>
      rw [List.foldl_cons]
      rw [show mrStep c s (RedEv.cancel e') = s from applyCancel_fired e' s h]
      exact ih s h

theorem runEpilogue_firstErr_fired {V : Type} (p : Option String) (s : MRState V)
    (h : s.cancelFired = true) : (runEpilogue p s).firstErr = s.firstErr := by
  cases p with
  | none => exact applyFinish_firstErr s
  | some msg => rw [show runEpilogue (some msg) s = s from applyCancel_fired _ s h]

theorem foldl_mrStep_firstErr {V : Type} (c : Bool) (p : Option String) :
    ∀ (evs : List (RedEv V)) (s : MRState V),
      s.cancelFired = false → s.firstErr = none →
      (runEpilogue p (evs.foldl (mrStep c) s)).firstErr
        = (firstCancelArg evs p).map cancelStored := by
  intro evs
  induction evs with
  | nil =>
    intro s h1 h2
    cases p with
    | none =>
      rw [List.foldl_nil]
      rw [show runEpilogue none s = applyFinish s from rfl]
      rw [applyFinish_firstErr, h2]
      rfl
    | some msg =>
      rw [List.foldl_nil]
      rw [show runEpilogue (some msg) s = applyCancel (some (GoErr.panicErr msg)) s from rfl]
      rw [applyCancel_unfired _ s h1, applyFinish_firstErr]
      rfl
  | cons e rest ih =>
    intro s h1 h2
    cases e with
    | write v =>
      rw [List.foldl_cons]
      exact ih (mrStep c s (RedEv.write v)) h1 h2
    | cancel e' =>
      rw [List.foldl_cons]
      rw [show mrStep c s (RedEv.cancel e') = applyCancel e' s from rfl]
      have hfe : (applyCancel e' s).firstErr = some (cancelStored e') := by
        rw [applyCancel_unfired e' s h1, applyFinish_firstErr]
      have hff : (applyCancel e' s).cancelFired = true := by
        rw [applyCancel_unfired e' s h1, applyFinish_cancelFired]
      obtain ⟨hc1, hc2⟩ := foldl_mrStep_fired c rest (applyCancel e' s) hff
      rw [runEpilogue_firstErr_fired p _ hc1, hc2, hfe]
      rfl

theorem runEvents_firstErr {V : Type} (c : Bool) (evs : List (RedEv V)) (p : Option String) :
    (runEvents c evs p).firstErr = (firstCancelArg evs p).map cancelStored :=
  foldl_mrStep_firstErr c p evs initState rfl rfl

theorem closeInv_init {V : Type} : closeInv (initState (V := V)) :=
  ⟨fun h => Bool.noConfusion h, fun h => Bool.noConfusion h, fun _ => rfl⟩

theorem closeInv_applyFinish {V : Type} (s : MRState V)
    (h2 : s.closed = true → s.closeTrace = [CloseEv.doneCh, CloseEv.outputCh])
    (h3 : s.closed = false → s.closeTrace = []) :
    closeInv (applyFinish s) := by
  unfold applyFinish
  by_cases hc : s.closed = true
  · rw [if_pos hc]
    exact ⟨fun _ => hc, h2, h3⟩
  · rw [if_neg hc]
    have hc' : s.closed = false := by
      cases hcc : s.closed
      · rfl
      · exact absurd hcc hc
    refine ⟨fun _ => rfl, fun _ => ?_, fun hco => Bool.noConfusion hco⟩
    rw [h3 hc']
    rfl

theorem closeInv_applyCancel {V : Type} (e : Option GoErr) (s : MRState V)
    (h : closeInv s) : closeInv (applyCancel e s) := by
  obtain ⟨h1, h2, h3⟩ := h
  unfold applyCancel
  by_cases hf : s.cancelFired = true
  · rw [if_pos hf]
    exact ⟨h1, h2, h3⟩
  · rw [if_neg hf]
    exact closeInv_applyFinish _ h2 h3

theorem closeInv_mrStep {V : Type} (c : Bool) (s : MRState V) (e : RedEv V)
    (h : closeInv s) : closeInv (mrStep c s e) := by
  cases e with
  | write v => exact h
  | cancel e' => exact closeInv_applyCancel e' s h

theorem closeInv_foldl {V : Type} (c : Bool) (evs : List (RedEv V)) :
    ∀ s : MRState V, closeInv s → closeInv (evs.foldl (mrStep c) s) := by
  induction evs with
  | nil => exact fun s h => h
  | cons e rest ih =>
    intro s h
    rw [List.foldl_cons]
    exact ih _ (closeInv_mrStep c s e h)

theorem runEpilogue_close {V : Type} (p : Option String) (s : MRState V)
    (h : closeInv s) :
    (runEpilogue p s).closed = true ∧
    (runEpilogue p s).closeTrace = [CloseEv.doneCh, CloseEv.outputCh] := by
  obtain ⟨h1, h2, h3⟩ := h
  cases p with
  | none =>
    refine ⟨applyFinish_closed s, ?_⟩
    exact (closeInv_applyFinish s h2 h3).2.1 (applyFinish_closed s)
  | some msg =>
    show (applyCancel (some (GoErr.panicErr msg)) s).closed = true ∧
      (applyCancel (some (GoErr.panicErr msg)) s).closeTrace
        = [CloseEv.doneCh, CloseEv.outputCh]
    cases hf : s.cancelFired with
    | true =>
      rw [applyCancel_fired _ s hf]
      exact ⟨h1 hf, h2 (h1 hf)⟩
    | false =>
      rw [applyCancel_unfired _ s hf]
      refine ⟨applyFinish_closed _, ?_⟩
      exact (closeInv_applyFinish
        { s with cancelFired := true,
                 firstErr := some (cancelStored (some (GoErr.panicErr msg))),
                 sourceDrained := true } h2 h3).2.1 (applyFinish_closed _)

theorem runEvents_close_aux {V : Type} (c : Bool) (evs : List (RedEv V))
    (p : Option String) :
    (runEvents c evs p).closed = true ∧
    (runEvents c evs p).closeTrace = [CloseEv.doneCh, CloseEv.outputCh] :=
  runEpilogue_close p _ (closeInv_foldl c evs initState closeInv_init)

theorem runEpilogue_outputVals {V : Type} (p : Option String) (s : MRState V) :
    (runEpilogue p s).outputVals = s.outputVals := by
  cases p with
  | none => exact applyFinish_outputVals s
  | some msg => exact applyCancel_outputVals _ s

theorem foldl_mrStep_outputVals_ctx {V : Type} (evs : List (RedEv V)) :
    ∀ s : MRState V, (evs.foldl (mrStep true) s).outputVals = s.outputVals := by
  induction evs with
  | nil => exact fun s => rfl
  | cons e rest ih =>
    intro s
    rw [List.foldl_cons, ih]
    cases e with
    | write v => rfl
    | cancel e' => exact applyCancel_outputVals e' s

theorem runEvents_outputVals_ctx {V : Type} (evs : List (RedEv V)) (p : Option String) :
    (runEvents true evs p).outputVals = [] := by
  unfold runEvents
  rw [runEpilogue_outputVals, foldl_mrStep_outputVals_ctx]
  rfl

theorem firstCancelArg_noCancel {V : Type} (p : Option String) :
    ∀ evs : List (RedEv V), hasCancel evs = false →
      firstCancelArg evs p = p.map (fun m => some (GoErr.panicErr m)) := by
  intro evs
  induction evs with
  | nil =>
    intro _
    cases p <;> rfl
  | cons e rest ih =>
    intro h
    cases e with
    | write v => exact ih h
    | cancel e' => exact Bool.noConfusion h

theorem applyFinish_sourceDrained {V : Type} (s : MRState V) :
    (applyFinish s).sourceDrained = s.sourceDrained := by
  unfold applyFinish
  split <;> rfl

theorem applyCancel_unfired_fired {V : Type} (e : Option GoErr) (s : MRState V)
    (h : s.cancelFired = false) : (applyCancel e s).cancelFired = true := by
  rw [applyCancel_unfired e s h, applyFinish_cancelFired]

theorem foldl_applyCancel_fixed {V : Type} (s : MRState V)
    (h : s.cancelFired = true) :
    ∀ es : List (Option GoErr), es.foldl (fun t a => applyCancel a t) s = s := by
  intro es
  induction es with
  | nil => rfl
  | cons e rest ih =>
    rw [List.foldl_cons]
    rw [show applyCancel e s = s from applyCancel_fired e s h]
    exact ih

theorem executeMappersRun_noCancel_applied {T U : Type} (f : T → List U) :
    ∀ (items : List T) (i : Nat),
      (executeMappersRun (fun _ => false) (fun _ => false) f i items).applied
        = items := by
  intro items
  induction items with
  | nil => intro i; rfl
  | cons t ts ih =>
    intro i
    simp only [executeMappersRun, Bool.false_eq_true, if_false]
    rw [show (executeMappersRun (fun _ => false) (fun _ => false) f (i + 1) ts).applied
          = ts from ih (i + 1)]

theorem executeMappersRun_cutoff_applied {T U : Type} (f : T → List U) (k : Nat) :
    ∀ (items : List T) (i : Nat),
      (executeMappersRun (fun j => decide (k ≤ j)) (fun _ => false) f i items).applied
        = items.take (k - i) := by
  intro items
  induction items with
  | nil => intro i; simp [executeMappersRun]
  | cons t ts ih =>
    intro i
    by_cases hk : k ≤ i
    · have h0 : k - i = 0 := Nat.sub_eq_zero_of_le hk
      simp [executeMappersRun, hk, h0]
    · have hm : k - i = (k - (i + 1)) + 1 := by omega
      simp only [executeMappersRun, hk, decide_eq_true_eq, if_false,
        Bool.false_eq_true]
      rw [ih (i + 1), hm, List.take_succ_cons]

/-! Claim theorems. -/

/-- C1: For every run of MapReduce/MapReduceWithSource, the returned
error is exactly one of: the first error recorded via the cancel closure
(the stored form of the first cancel argument - a user error unchanged,
ErrCancelWithNil for nil, a panic-derived error on reducer panic) when
the first-error cell was populated; otherwise ErrReduceNoOutput when the
output channel closed without the reducer writing a value; otherwise nil
with the reducer's written value returned. -/
theorem mapReduceWithSource_error_cases {V : Type} (z : V) (c : Bool)
    (evs : List (RedEv V)) (p : Option String) :
    mapReduceRun z c evs p =
      match firstCancelArg evs p with
      | some a => (z, some (cancelStored a))
      | none =>
        match (runEvents c evs p).outputVals with
        | [] => (z, some GoErr.errReduceNoOutput)
        | v :: _ => (v, none) := by
  unfold mapReduceRun
  rw [runEvents_firstErr]
  cases hfc : firstCancelArg evs p with
  | some a => rfl
  | none =>
    cases ho : (runEvents c evs p).outputVals with
    | nil => rfl
    | cons v t => rfl

/-- C2: The cancel closure is idempotent: from a state where it has not
fired and the channels are not yet closed, the first invocation stores
the error (nil becoming ErrCancelWithNil, any other error unchanged),
drains the source and closes done then output; every later invocation,
with any argument, is a no-op, so invoking cancel repeatedly equals
invoking it once with the first argument. -/
theorem cancel_once_idempotent {V : Type} (s : MRState V)
    (e1 e2 : Option GoErr) (h1 : s.cancelFired = false) (h2 : s.closed = false) :
    (applyCancel e1 s).firstErr = some (cancelStored e1) ∧
    (applyCancel e1 s).sourceDrained = true ∧
    (applyCancel e1 s).closed = true ∧
    (applyCancel e1 s).closeTrace
      = s.closeTrace ++ [CloseEv.doneCh, CloseEv.outputCh] ∧
    applyCancel e2 (applyCancel e1 s) = applyCancel e1 s ∧
    (∀ es : List (Option GoErr),
      es.foldl (fun t a => applyCancel a t) (applyCancel e1 s) = applyCancel e1 s) ∧
    cancelStored none = GoErr.errCancelWithNil ∧
    (∀ er : GoErr, cancelStored (some er) = er) := by
  have hfired := applyCancel_unfired_fired e1 s h1
  have hne : ¬ (s.closed = true) := fun hh => by
    rw [h2] at hh
    exact Bool.noConfusion hh
  refine ⟨?_, ?_, ?_, ?_, applyCancel_fired e2 _ hfired,
    foldl_applyCancel_fixed _ hfired, rfl, fun er => rfl⟩
  · rw [applyCancel_unfired e1 s h1, applyFinish_firstErr]
  · rw [applyCancel_unfired e1 s h1, applyFinish_sourceDrained]
  · rw [applyCancel_unfired e1 s h1]
    exact applyFinish_closed _
  · rw [applyCancel_unfired e1 s h1]
    unfold applyFinish
    rw [if_neg hne]

/-- Witness for cancel_once_idempotent: from the initial state, a first
cancel with nil stores ErrCancelWithNil and a second cancel with a
user error is a no-op. -/
theorem cancel_once_idempotent_w :
    (initState (V := Unit)).cancelFired = false ∧
    (initState (V := Unit)).closed = false ∧
    (applyCancel none (initState (V := Unit))).firstErr
      = some GoErr.errCancelWithNil ∧
    applyCancel (some (GoErr.userErr "boom")) (applyCancel none (initState (V := Unit)))
      = applyCancel none (initState (V := Unit)) := by
  have h := cancel_once_idempotent (initState (V := Unit)) none
    (some (GoErr.userErr "boom")) rfl rfl
  exact ⟨rfl, rfl, h.1, h.2.2.2.2.1⟩

/-- C3: the output channel carries at most one value before the close in
any non-panicking interaction; when the reducer manages a second write,
the orchestrator's deferred tail drain of output - which receives
everything beyond the single value taken by the main read - raises the
fatal double-write panic instead of returning an error, and stays silent
when at most one value was written. -/
theorem output_tail_drain_panic {V : Type} (c : Bool) (evs : List (RedEv V))
    (p : Option String) :
    mapReduceTailDrain c evs p =
      (if 2 ≤ (runEvents c evs p).outputVals.length
       then Except.error "more than one element written in reducer"
       else Except.ok ()) := by
  unfold mapReduceTailDrain
  cases ho : (runEvents c evs p).outputVals with
  | nil => rfl
  | cons v t =>
    cases t with
    | nil => rfl
    | cons w u =>
      rw [if_pos (show 2 ≤ (v :: w :: u).length by
        simp only [List.length_cons]
        omega)]
      rfl

/-- C4: guardedWriter.Write bound to (ctx, out channel, done) silently
discards the value when ctx is cancelled or done is closed and otherwise
sends it on the channel; as an event of the run it touches nothing but
the output channel. -/
theorem guardedWriter_write_semantics {T V : Type} (c d : Bool) (ch : List T)
    (v : T) (s : MRState V) (w : V) :
    gwWrite c d ch v = (if (c || d) = true then ch else ch ++ [v]) ∧
    (mrStep c s (RedEv.write w)).outputVals = gwWrite c s.closed s.outputVals w ∧
    (mrStep c s (RedEv.write w)).firstErr = s.firstErr ∧
    (mrStep c s (RedEv.write w)).cancelFired = s.cancelFired ∧
    (mrStep c s (RedEv.write w)).closed = s.closed ∧
    (mrStep c s (RedEv.write w)).closeTrace = s.closeTrace ∧
    (mrStep c s (RedEv.write w)).sourceDrained = s.sourceDrained := by
  refine ⟨?_, rfl, rfl, rfl, rfl, rfl, rfl⟩
  cases c <;> cases d <;> rfl

/-- C5: a reducer panic is caught by the orchestrator's deferred
recover, converted to an error whose message is the string form of the
panic value, and routed through the cancel closure, so the run returns
the zero value with that error instead of propagating the panic (the
event model never propagates the panic: the epilogue converts it). -/
theorem reducer_panic_recovered {V : Type} (z : V) (c : Bool)
    (evs : List (RedEv V)) (msg : String) (h : hasCancel evs = false) :
    mapReduceRun z c evs (some msg) = (z, some (GoErr.panicErr msg)) ∧
    GoErr.message (GoErr.panicErr msg) = msg := by
  refine ⟨?_, rfl⟩
  unfold mapReduceRun
  rw [runEvents_firstErr, firstCancelArg_noCancel (some msg) evs h]
  rfl

/-- Witness for reducer_panic_recovered: a run that wrote once and then
panicked with message foo returns the panic-derived error. -/
theorem reducer_panic_recovered_w :
    hasCancel [RedEv.write (0 : Nat)] = false ∧
    mapReduceRun (0 : Nat) false [RedEv.write (0 : Nat)] (some "foo")
      = (0, some (GoErr.panicErr "foo")) :=
  ⟨rfl, (reducer_panic_recovered 0 false [RedEv.write 0] "foo" rfl).1⟩

/-- C6: in every run the done channel and the output channel are closed
by the once-guarded finish routine, done first and then output, exactly
once across all exit paths (reducer clean return, reducer panic, and
cancel): the close trace of the final state is exactly that ordered
pair. -/
theorem done_output_closed_once_ordered {V : Type} (c : Bool)
    (evs : List (RedEv V)) (p : Option String) :
    (runEvents c evs p).closed = true ∧
    (runEvents c evs p).closeTrace = [CloseEv.doneCh, CloseEv.outputCh] :=
  runEvents_close_aux c evs p

/-- C7: when the external context is cancelled and the cancel closure is
never invoked, the run returns ErrReduceNoOutput - not the context's
cause nor a synthesized error: the guarded writer lets nothing onto
output, and the worker pool exits once the context is done, having
handed the mapper only the items before the cancellation point. -/
theorem external_ctx_cancel_reduce_no_output {V T U : Type} (z : V)
    (evs : List (RedEv V)) (f : T → List U) (items : List T) (k : Nat)
    (h : hasCancel evs = false) :
    mapReduceRun z true evs none = (z, some GoErr.errReduceNoOutput) ∧
    (executeMappersRun (fun j => decide (k ≤ j)) (fun _ => false) f 0 items).applied
      = items.take k ∧
    (executeMappersRun (fun j => decide (k ≤ j)) (fun _ => false) f k items).applied
      = [] := by
  refine ⟨?_, ?_, ?_⟩
  · unfold mapReduceRun
    rw [runEvents_firstErr, firstCancelArg_noCancel none evs h,
      runEvents_outputVals_ctx]
    rfl
  · rw [executeMappersRun_cutoff_applied, Nat.sub_zero]
  · rw [executeMappersRun_cutoff_applied, Nat.sub_self, List.take_zero]

/-- Witness for external_ctx_cancel_reduce_no_output: a cancelled
context with no cancel invocation yields ErrReduceNoOutput. -/
theorem external_ctx_cancel_reduce_no_output_w :
    hasCancel ([] : List (RedEv Nat)) = false ∧
    mapReduceRun (0 : Nat) true ([] : List (RedEv Nat)) none
      = (0, some GoErr.errReduceNoOutput) :=
  ⟨rfl,
    (external_ctx_cancel_reduce_no_output 0 [] (fun t : Nat => [t]) [1, 2, 3] 1
      rfl).1⟩

/-- C8: with no WithWorkers option the worker count is 16; WithWorkers n
sets it to n when n is at least 1 and clamps it to 1 otherwise; with no
WithContext option the context is the never-cancelled background
context. -/
theorem options_defaults_and_clamp (n : Int) (o : mapReduceOptions) :
    (buildOptions []).workers = 16 ∧
    (buildOptions []).ctx = GoContext.background ∧
    GoContext.isCancelled (buildOptions []).ctx = false ∧
    (buildOptions [WithWorkers n]).workers = (if n < 1 then 1 else n) ∧
    (1 ≤ n → (WithWorkers n o).workers = n) ∧
    (n < 1 → (WithWorkers n o).workers = 1) := by
  refine ⟨rfl, rfl, rfl, ?_, ?_, ?_⟩
  · by_cases hn : n < 1
    · have hn' : n < minWorkers := hn
      show (WithWorkers n newOptions).workers = _
      unfold WithWorkers
      rw [if_pos hn', if_pos hn]
      rfl
    · have hn' : ¬ n < minWorkers := hn
      show (WithWorkers n newOptions).workers = _
      unfold WithWorkers
      rw [if_neg hn', if_neg hn]
  · intro hle
    have hn : ¬ n < minWorkers := by
      unfold minWorkers
      omega
    unfold WithWorkers
    rw [if_neg hn]
  · intro hlt
    have hn : n < minWorkers := hlt
    unfold WithWorkers
    rw [if_pos hn]
    rfl

/-- Witness for options_defaults_and_clamp: WithWorkers 5 keeps 5 and
WithWorkers (-3) clamps to 1. -/
theorem options_defaults_and_clamp_w :
    (1 : Int) ≤ 5 ∧ (WithWorkers 5 newOptions).workers = 5 ∧
    (-3 : Int) < 1 ∧ (WithWorkers (-3) newOptions).workers = 1 :=
  ⟨by norm_num,
    (options_defaults_and_clamp 5 newOptions).2.2.2.2.1 (by norm_num),
    by norm_num,
    (options_defaults_and_clamp (-3) newOptions).2.2.2.2.2 (by norm_num)⟩

/-- C9: Finish with zero functions returns nil immediately without the
pipeline executing any function, and FinishVoid with zero functions
returns immediately with no function executed. -/
theorem finish_empty_fns :
    Finish [] = ([], none) ∧ (∀ α : Type, FinishVoid ([] : List α) = []) :=
  ⟨rfl, fun _ => rfl⟩

/-- C10: MapVoid drains the channel returned by Map before returning,
so for a finite producer stream under the never-cancelled default
context it returns only after the mapper has been applied to every
produced item: its trace of mapper applications is the whole stream,
and Map's pool itself hands every item to the mapper. -/
theorem mapVoid_applies_all {T U : Type} (items : List T) (f : T → List U) :
    MapVoid (fun _ => false) items = items ∧
    (MapChan (fun _ => false) f items).applied = items := by
  constructor
  · show (MapChan (fun _ => false) (fun _ => ([] : List Unit)) items).applied
      = items
    exact executeMappersRun_noCancel_applied _ items 0
  · exact executeMappersRun_noCancel_applied f items 0
